import Mathlib

/-
Verification of the scan-orchestration core of the production-readiness
image scanner (pkg/scanner/scanner.go).

Strings from the Go code are modelled as `List Char`.  Go maps used by the
code (`map[string][]ContainerSummary`, `map[string]int`) are modelled as
association lists with the Go semantics of lookup-with-zero-default and
update-or-append; all properties stated about them are insensitive to key
order, which Go leaves unspecified.
-/

set_option autoImplicit false
set_option maxRecDepth 8192

namespace ProdReadiness

/-- Coerce a string literal to the `List Char` representation used throughout. -/
def str (s : String) : List Char := s.data

/-- Model of Go `strings.Split` for a single-character separator:
splits at every occurrence of `sep`; the empty string yields `[[]]`. -/
def splitOn (sep : Char) : List Char → List (List Char)
  | [] => [[]]
  | c :: cs =>
    let rest := splitOn sep cs
    if c = sep then [] :: rest
    else
      match rest with
      | [] => [[c]]
      | r :: rs => (c :: r) :: rs

/-- Fuel-driven worker for `replaceAll`; the fuel is always at least the
length of the subject string, so the `0` case is never reached with a
non-empty subject. -/
def replaceGo : Nat → List Char → List Char → List Char → List Char
  | 0, s, _, _ => s
  | Nat.succ fuel, s, old, new =>
    if old.isPrefixOf s then new ++ replaceGo fuel (s.drop old.length) old new
    else
      match s with
      | [] => []
      | c :: cs => c :: replaceGo fuel cs old new

/-- Model of Go `strings.Replace(s, old, new, -1)`: leftmost non-overlapping
global replacement; an empty `old` inserts `new` at every position
(before each character and at the end), as in Go. -/
def replaceAll (s old new : List Char) : List Char :=
  if old = [] then new ++ s.foldr (fun c acc => c :: new ++ acc) []
  else replaceGo s.length s old new

/-- Apply one rewrite-rule entry to a name: if the entry splits into exactly
two parts on the bar character the substitution is performed, otherwise the
name is left unchanged.  This is the per-iteration body of the loop in
`stringReplacement` (scanner.go lines 303-313). -/
def applyEntry (name e : List Char) : List Char :=
  match splitOn '|' e with
  | [m, r] => replaceAll name m r
  | _ => name

/-- The loop of `stringReplacement` over the comma-separated entries: each
well-formed entry rewrites the current name; the first malformed entry stops
the loop, returning the current name together with the error flag. -/
def applyEntries : List (List Char) → List Char → List Char × Bool
  | [], name => (name, false)
  | e :: rest, name =>
    match splitOn '|' e with
    | [m, r] => applyEntries rest (replaceAll name m r)
    | _ => (name, true)

/-- Model of `Scanner.stringReplacement` (scanner.go lines 300-316).
The second component is `true` exactly when the Go function returns a
non-nil format error. -/
def stringReplacement (imageName repl : List Char) : List Char × Bool :=
  if repl = [] then (imageName, false)
  else applyEntries (splitOn ',' repl) imageName

/-- Decides whether `sub` occurs as a contiguous substring of `s`
(model of Go `strings.Contains`). -/
def containsSubstring : List Char → List Char → Bool
  | [], sub => sub.isEmpty
  | c :: cs, sub => sub.isPrefixOf (c :: cs) || containsSubstring cs sub

/-- Render one rewrite rule `(match, replacement)` as `match|replacement`. -/
def renderRule (p : List Char × List Char) : List Char := p.1 ++ '|' :: p.2

/-- Join strings with a single-character separator. -/
def joinWith (sep : Char) : List (List Char) → List Char
  | [] => []
  | [e] => e
  | e :: e2 :: es => e ++ sep :: joinWith sep (e2 :: es)

/-- Render a rule list as the comma-separated rule string the scanner config
carries (`match|replacement,match|replacement,...`). -/
def renderRules (rules : List (List Char × List Char)) : List Char :=
  joinWith ',' (rules.map renderRule)

/-- Model of the external `k8s.ContainerSummary` record: a running container
together with the image reference it was started from (spec `ContainerRef`). -/
structure ContainerSummary where
  Image : List Char
  Pod : List Char
  ContainerName : List Char
  deriving DecidableEq, Repr

/-- Model of the `Layer` record of scanner.go (lines 124-128). -/
structure Layer where
  DiffID : List Char
  Digest : List Char
  deriving DecidableEq, Repr

/-- Model of the `Vulnerabilities` record of scanner.go (lines 38-50):
one finding of the external scan engine. -/
structure Vulnerabilities where
  Description : List Char
  Severity : List Char
  SeveritySource : List Char
  FixedVersion : List Char
  InstalledVersion : List Char
  VulnerabilityID : List Char
  PkgName : List Char
  Title : List Char
  References : List (List Char)
  LayerRef : Option Layer
  deriving DecidableEq, Repr

/-- Model of the `TrivyOutputResults` record of scanner.go (lines 52-57):
one scan target and its findings. -/
structure TrivyOutputResults where
  Vulnerabilities : List Vulnerabilities
  type : List Char
  Target : List Char
  deriving DecidableEq, Repr

/-- Go `error` values are modelled by their message strings. -/
abbrev GoError : Type := List Char

/-- Model of the `VulnerabilitySummary` record of scanner.go (lines 31-36).
The Go `map[string]int` histogram is modelled as an association list. -/
structure VulnerabilitySummary where
  ContainerCount : Nat
  SeverityScore : Nat
  TotalVulnerabilityBySeverity : List (List Char × Nat)
  deriving DecidableEq, Repr

/-- Model of the `ScannedImage` record of scanner.go (lines 22-29). -/
structure ScannedImage where
  TrivyOutputResults : List TrivyOutputResults
  Containers : List ContainerSummary
  ImageName : List Char
  ScanError : Option GoError
  VulnerabilitySummary : VulnerabilitySummary
  deriving DecidableEq, Repr

/-- The severity weight constants of scanner.go (lines 253-259). -/
def critical : Nat := 100000000

/-- HIGH severity weight (scanner.go line 255). -/
def high : Nat := 1000000

/-- MEDIUM severity weight (scanner.go line 256). -/
def medium : Nat := 10000

/-- LOW severity weight (scanner.go line 257). -/
def low : Nat := 100

/-- UNKNOWN severity weight (scanner.go line 258). -/
def unknown : Nat := 1

/-- Model of the `severityScores` map of scanner.go (lines 261-263). -/
def severityScores : List (List Char × Nat) :=
  [(str ("CRITICAL"), critical), (str ("HIGH"), high), (str ("MEDIUM"), medium),
   (str ("LOW"), low), (str ("UNKNOWN"), unknown)]

/-- The five known severity strings. -/
def knownSeverities : List (List Char) :=
  [str ("CRITICAL"), str ("HIGH"), str ("MEDIUM"), str ("LOW"), str ("UNKNOWN")]

/-- Go map read with zero default (`m[k]` for a `map[string]int`). -/
def lookupD : List (List Char × Nat) → List Char → Nat
  | [], _ => 0
  | (k', v) :: rest, k => if k' = k then v else lookupD rest k

/-- Go map write (`m[k] = v` for a `map[string]int`): update the existing
entry or add a new one. -/
def mapSet : List (List Char × Nat) → List Char → Nat → List (List Char × Nat)
  | [], k, v => [(k, v)]
  | (k', v') :: rest, k, v =>
    if k' = k then (k, v) :: rest else (k', v') :: mapSet rest k v

/-- The zero-initialised histogram built by the first loop of
`buildVulnerabilitySummary` (scanner.go lines 278-281): one entry per key of
`severityScores`, all zero. -/
def zeroHist : List (List Char × Nat) :=
  severityScores.foldl (fun m p => mapSet m p.1 0) []

/-- The body of the counting loop of `buildVulnerabilitySummary`
(scanner.go line 284): increment the entry of the finding's severity. -/
def histStep (m : List (List Char × Nat)) (v : Vulnerabilities) : List (List Char × Nat) :=
  mapSet m v.Severity (lookupD m v.Severity + 1)

/-- The severity histogram of `buildVulnerabilitySummary`
(scanner.go lines 278-286): count every finding of every scan target. -/
def histOf (results : List TrivyOutputResults) : List (List Char × Nat) :=
  results.foldl (fun m t => t.Vulnerabilities.foldl histStep m) zeroHist

/-- The score loop of `buildVulnerabilitySummary` (scanner.go lines 288-292):
sum `count * severityScores[severity]` over the histogram entries; a severity
missing from `severityScores` contributes weight zero, as a Go map read does. -/
def scoreOfMap (m : List (List Char × Nat)) : Nat :=
  m.foldl (fun acc p => acc + p.2 * lookupD severityScores p.1) 0

/-- Model of `ScannedImage.buildVulnerabilitySummary` (scanner.go lines
277-298), parameterised by the two fields of the receiver that it reads. -/
def buildVulnerabilitySummary (results : List TrivyOutputResults)
    (containers : List ContainerSummary) : VulnerabilitySummary :=
  { ContainerCount := containers.length
    SeverityScore := scoreOfMap (histOf results)
    TotalVulnerabilityBySeverity := histOf results }

/-- Model of `NewScannedImage` (scanner.go lines 266-275). -/
def NewScannedImage (imageName : List Char) (containers : List ContainerSummary)
    (trivyOutput : List TrivyOutputResults) (scanError : Option GoError) : ScannedImage :=
  { ImageName := imageName
    Containers := containers
    TrivyOutputResults := trivyOutput
    ScanError := scanError
    VulnerabilitySummary := buildVulnerabilitySummary trivyOutput containers }

/-- One iteration of the loop of `groupContainersByImageName` (scanner.go
lines 175-180): append the container to its image's bucket, creating the
bucket when the key is absent (the Go code initialises an absent key to the
empty slice and then appends). -/
def bucketAppend : List (List Char × List ContainerSummary) → List Char → ContainerSummary →
    List (List Char × List ContainerSummary)
  | [], k, c => [(k, [c])]
  | (k', v) :: rest, k, c =>
    if k' = k then (k', v ++ [c]) :: rest else (k', v) :: bucketAppend rest k c

/-- Model of `Scanner.groupContainersByImageName` (scanner.go lines 173-182);
the Go `map[string][]ContainerSummary` is modelled as an association list. -/
def groupContainersByImageName (containers : List ContainerSummary) :
    List (List Char × List ContainerSummary) :=
  containers.foldl (fun acc c => bucketAppend acc c.Image c) []

/-- The external collaborators consumed by `scanImages`, at the interface
boundary of spec section 6: the trivy client's database download and image
scan, and the docker client's pull/remove.  `none`/`Except.ok` model a nil
Go error. -/
structure ScanEnv where
  downloadDatabase : Option GoError
  pullImage : List Char → Option GoError
  scanImage : List Char → Except GoError (List TrivyOutputResults)
  rmiImage : List Char → Option GoError

/-- External calls made during a scan run, in program order. -/
inductive ScanEvent
  | downloadDB
  | pull (image : List Char)
  | scan (image : List Char)
  | rmi (image : List Char)
  deriving DecidableEq, Repr

/-- The scan-error message built at scanner.go line 213. -/
def trivyErrMsg (image e : List Char) : GoError :=
  str ("error executing trivy for image ") ++ image ++ str (": ") ++ e

/-- Shallow embedding of one worker task of `scanImages` (the closure
submitted at scanner.go lines 201-227) together with the name resolution
that precedes its submission (lines 196-199): resolve the name (a resolution
error is only logged, the returned name is used), pull, scan, remove —
pull and remove failures are only logged — and construct the `ScannedImage`,
recording a scan failure in its `ScanError` field.  Returns the external
calls made and the produced result. -/
def processImage (env : ScanEnv) (repl : List Char)
    (entry : List Char × List ContainerSummary) : List ScanEvent × ScannedImage :=
  let resolvedImageName := (stringReplacement entry.1 repl).1
  let scanRes := env.scanImage resolvedImageName
  let trivyOutput : List TrivyOutputResults :=
    match scanRes with
    | Except.ok out => out
    | Except.error _ => []
  let scanError : Option GoError :=
    match scanRes with
    | Except.ok _ => none
    | Except.error e => some (trivyErrMsg resolvedImageName e)
  ([ScanEvent.pull resolvedImageName, ScanEvent.scan resolvedImageName,
    ScanEvent.rmi resolvedImageName],
   NewScannedImage resolvedImageName entry.2 trivyOutput scanError)

/-- The fatal database error message built at scanner.go line 189. -/
def dbErrMsg (e : List Char) : GoError := str ("failed to download trivy db: ") ++ e

/-- Shallow embedding of `Scanner.scanImages` (scanner.go lines 184-232).
The worker pool is sequentialised: its tasks are independent and the pool is
joined (`StopWait`) before the results are returned, so the collected result
list is modelled in dispatch order.  Returns the trace of external calls and
either the fatal database error or the collected `ScannedImage` list. -/
def scanImages (env : ScanEnv) (repl : List Char)
    (imageList : List (List Char × List ContainerSummary)) :
    List ScanEvent × Except GoError (List ScannedImage) :=
  match env.downloadDatabase with
  | some e => ([ScanEvent.downloadDB], Except.error (dbErrMsg e))
  | none =>
    (ScanEvent.downloadDB ::
       (imageList.map (fun entry => (processImage env repl entry).1)).flatten,
     Except.ok (imageList.map (fun entry => (processImage env repl entry).2)))

/-- The external compliance engine consumed by `CisScan`
(`trivyClient.CisScan`), at the interface boundary of spec section 6; its
output is opaque to the orchestration, which only logs it. -/
structure CisEnv where
  cisEngine : List Char → Except GoError (List Char)

/-- The fatal compliance-scan error message built at scanner.go line 240. -/
def cisErrMsg (e : List Char) : GoError := str ("error executing trivy cluster scan: ") ++ e

/-- Shallow embedding of `Scanner.CisScan` (scanner.go lines 235-251).
The first component lists the benchmark arguments of the engine invocations
made; the success value is the argument the orchestration hands to
`GenerateVulnerabilityReport` — the literal `nil` of scanner.go line 250,
modelled as `none`. -/
def CisScan (env : CisEnv) (benchmark : List Char) :
    List (List Char) × Except GoError (Option (List ScannedImage)) :=
  match env.cisEngine benchmark with
  | Except.error e => ([benchmark], Except.error (cisErrMsg e))
  | Except.ok _ => ([benchmark], Except.ok none)

/-- The flattened finding list of a result set, in order. -/
def allVulns (results : List TrivyOutputResults) : List Vulnerabilities :=
  (results.map (fun t => t.Vulnerabilities)).flatten

/-- Number of findings of a flat finding list carrying severity `s`. -/
def sevCountV (vs : List Vulnerabilities) (s : List Char) : Nat :=
  vs.countP (fun v => decide (v.Severity = s))

/-- Number of findings of a result set carrying severity `s`. -/
def sevCount (results : List TrivyOutputResults) (s : List Char) : Nat :=
  sevCountV (allVulns results) s

/-- Total severity weight of a flat finding list. -/
def weightSum (vs : List Vulnerabilities) : Nat :=
  (vs.map (fun v => lookupD severityScores v.Severity)).sum

/-- First occurrences of a string list, in first-seen order. -/
def dedupFirst : List (List Char) → List (List Char)
  | [] => []
  | x :: xs => x :: (dedupFirst xs).filter (fun y => decide (¬ y = x))

/-- A finding with the given severity and empty remaining fields; used to
build concrete inputs. -/
def mkVuln (sev : List Char) : Vulnerabilities :=
  { Description := [], Severity := sev, SeveritySource := [], FixedVersion := []
    InstalledVersion := [], VulnerabilityID := [], PkgName := [], Title := []
    References := [], LayerRef := none }

/-- A scan target holding the given findings; used to build concrete inputs. -/
def mkTarget (vs : List Vulnerabilities) : TrivyOutputResults :=
  { Vulnerabilities := vs, type := [], Target := [] }

/-- A container running the given image; used to build concrete inputs. -/
def mkContainer (image pod : List Char) : ContainerSummary :=
  { Image := image, Pod := pod, ContainerName := [] }

/-- Closed form of the grouper's output: one bucket per distinct image (in
first-seen order), each bucket holding the input's containers with that
image in input order.  Proved equal to `groupContainersByImageName`. -/
def groupSpec (cs : List ContainerSummary) : List (List Char × List ContainerSummary) :=
  (dedupFirst (cs.map (fun c => c.Image))).map
    (fun k => (k, cs.filter (fun c => decide (c.Image = k))))

/-- Sample containers sharing one image; used to build concrete inputs. -/
def sampleA1 : ContainerSummary := mkContainer (str ("a")) (str ("p1"))

/-- Second sample container with the same image as `sampleA1`. -/
def sampleA2 : ContainerSummary := mkContainer (str ("a")) (str ("p2"))

/-- An environment whose database download fails; used for concrete runs. -/
def sampleEnvDbFail : ScanEnv :=
  { downloadDatabase := some (str ("netdown"))
    pullImage := fun _ => none
    scanImage := fun _ => Except.ok []
    rmiImage := fun _ => none }

/-- An environment whose database download succeeds but whose image pull,
scan and removal all fail; used for concrete runs. -/
def sampleEnvScanFail : ScanEnv :=
  { downloadDatabase := none
    pullImage := fun _ => some (str ("pullerr"))
    scanImage := fun _ => Except.error (str ("boom"))
    rmiImage := fun _ => some (str ("rmierr")) }

/-! ### Lemmas about the name resolver -/

theorem exists_pair_of_length_eq_two {α : Type} :
    ∀ (l : List α), l.length = 2 → ∃ a b, l = [a, b]
  | [a, b], _ => ⟨a, b, rfl⟩
  | [], h => absurd h (by simp)
  | [_], h => absurd h (by simp)
  | _ :: _ :: _ :: _, h => absurd h (by simp)

theorem applyEntries_append_bad (e : List Char) (post : List (List Char)) :
    ∀ (pre : List (List Char)) (name : List Char),
    (∀ e' ∈ pre, (splitOn '|' e').length = 2) →
    (splitOn '|' e).length ≠ 2 →
    applyEntries (pre ++ e :: post) name = (pre.foldl applyEntry name, true) := by
  intro pre
  induction pre with
  | nil =>
    intro name _ hbad
    simp only [List.nil_append, List.foldl_nil]
    cases h : splitOn '|' e with
    | nil => simp [applyEntries, h]
    | cons a t =>
      cases t with
      | nil => simp [applyEntries, h]
      | cons b t2 =>
        cases t2 with
        | nil => exact absurd (by rw [h]; rfl) hbad
        | cons c t3 => simp [applyEntries, h]
  | cons p ps ih =>
    intro name hpre hbad
    have hp : (splitOn '|' p).length = 2 := hpre p (by simp)
    obtain ⟨a, b, hab⟩ := exists_pair_of_length_eq_two _ hp
    have hstep : applyEntries ((p :: ps) ++ e :: post) name =
        applyEntries (ps ++ e :: post) (replaceAll name a b) := by
      simp [applyEntries, hab]
    have happ : applyEntry name p = replaceAll name a b := by
      simp [applyEntry, hab]
    rw [hstep, List.foldl_cons, happ]
    exact ih _ (fun e' he' => hpre e' (by simp [he'])) hbad

theorem splitOn_not_mem (sep : Char) : ∀ (e : List Char), ¬ sep ∈ e → splitOn sep e = [e] := by
  intro e
  induction e with
  | nil => intro _; rfl
  | cons c cs ih =>
    intro h
    have hc : ¬ c = sep := fun hc => h (by simp [hc])
    have hcs : ¬ sep ∈ cs := fun hm => h (by simp [hm])
    simp [splitOn, hc, ih hcs]

theorem splitOn_append_cons (sep : Char) :
    ∀ (e t : List Char), ¬ sep ∈ e → splitOn sep (e ++ sep :: t) = e :: splitOn sep t := by
  intro e
  induction e with
  | nil => intro t _; simp [splitOn]
  | cons c cs ih =>
    intro t h
    have hc : ¬ c = sep := fun hc => h (by simp [hc])
    have hcs : ¬ sep ∈ cs := fun hm => h (by simp [hm])
    simp [splitOn, hc, ih t hcs]

theorem joinWith_ne_nil (sep : Char) (e : List Char) (es : List (List Char)) :
    e ≠ [] → joinWith sep (e :: es) ≠ [] := by
  intro he
  cases es with
  | nil => simpa [joinWith] using he
  | cons e2 es2 => simp [joinWith]

theorem splitOn_joinWith (sep : Char) :
    ∀ (entries : List (List Char)), entries ≠ [] →
    (∀ e ∈ entries, ¬ sep ∈ e) →
    splitOn sep (joinWith sep entries) = entries := by
  intro entries
  induction entries with
  | nil => intro h; exact absurd rfl h
  | cons e es ih =>
    intro _ hmem
    cases es with
    | nil => simpa [joinWith] using splitOn_not_mem sep e (hmem e (by simp))
    | cons e2 es2 =>
      have h1 : ¬ sep ∈ e := hmem e (by simp)
      have h2 : splitOn sep (joinWith sep (e2 :: es2)) = e2 :: es2 :=
        ih (by simp) (fun x hx => hmem x (by simp [hx]))
      calc splitOn sep (joinWith sep (e :: e2 :: es2))
          = splitOn sep (e ++ sep :: joinWith sep (e2 :: es2)) := rfl
        _ = e :: splitOn sep (joinWith sep (e2 :: es2)) := splitOn_append_cons sep e _ h1
        _ = e :: e2 :: es2 := by rw [h2]

theorem splitOn_renderRule (p : List Char × List Char)
    (h1 : ¬ '|' ∈ p.1) (h2 : ¬ '|' ∈ p.2) :
    splitOn '|' (renderRule p) = [p.1, p.2] := by
  unfold renderRule
  rw [splitOn_append_cons '|' p.1 p.2 h1, splitOn_not_mem '|' p.2 h2]

theorem applyEntries_renderRules :
    ∀ (rules : List (List Char × List Char)) (name : List Char),
    (∀ p ∈ rules, ¬ '|' ∈ p.1 ∧ ¬ '|' ∈ p.2) →
    applyEntries (rules.map renderRule) name =
      (rules.foldl (fun n p => replaceAll n p.1 p.2) name, false) := by
  intro rules
  induction rules with
  | nil => intro name _; rfl
  | cons r rs ih =>
    intro name h
    have hr := h r (by simp)
    have hsplit : splitOn '|' (renderRule r) = [r.1, r.2] :=
      splitOn_renderRule r hr.1 hr.2
    have hstep : applyEntries ((r :: rs).map renderRule) name =
        applyEntries (rs.map renderRule) (replaceAll name r.1 r.2) := by
      simp [applyEntries, hsplit]
    rw [hstep, List.foldl_cons]
    exact ih _ (fun p hp => h p (by simp [hp]))

/-! ### Lemmas about the histogram map -/

theorem lookupD_mapSet (k : List Char) (v : Nat) :
    ∀ (m : List (List Char × Nat)) (s : List Char),
    lookupD (mapSet m k v) s = if k = s then v else lookupD m s := by
  intro m
  induction m with
  | nil =>
    intro s
    simp [mapSet, lookupD]
  | cons p rest ih =>
    intro s
    obtain ⟨k', v'⟩ := p
    by_cases hk : k' = k
    · subst hk
      by_cases hs : k' = s
      · subst hs
        simp [mapSet, lookupD]
      · simp [mapSet, lookupD, hs]
    · by_cases hs : k' = s
      · subst hs
        have hks : ¬ k = k' := fun h => hk h.symm
        simp [mapSet, lookupD, hk, hks]
      · simp [mapSet, lookupD, hk, hs, ih s]

theorem keys_mapSet (k : List Char) (v : Nat) :
    ∀ (m : List (List Char × Nat)),
    (mapSet m k v).map Prod.fst =
      if k ∈ m.map Prod.fst then m.map Prod.fst else m.map Prod.fst ++ [k] := by
  intro m
  induction m with
  | nil => simp [mapSet]
  | cons p rest ih =>
    obtain ⟨k', v'⟩ := p
    by_cases hk : k' = k
    · subst hk
      simp [mapSet]
    · have hks : ¬ k = k' := fun h => hk h.symm
      by_cases hmem : k ∈ rest.map Prod.fst
      · simp [mapSet, hk, hks, hmem, ih]
      · simp [mapSet, hk, hks, hmem, ih]

theorem mem_keys_mapSet (k : List Char) (v : Nat) (m : List (List Char × Nat)) (s : List Char) :
    s ∈ (mapSet m k v).map Prod.fst ↔ s ∈ m.map Prod.fst ∨ s = k := by
  rw [keys_mapSet]
  by_cases hmem : k ∈ m.map Prod.fst
  · rw [if_pos hmem]
    constructor
    · exact Or.inl
    · rintro (h | rfl)
      · exact h
      · exact hmem
  · rw [if_neg hmem]
    simp [List.mem_append]

theorem nodup_keys_mapSet (k : List Char) (v : Nat) (m : List (List Char × Nat))
    (h : (m.map Prod.fst).Nodup) : ((mapSet m k v).map Prod.fst).Nodup := by
  rw [keys_mapSet]
  by_cases hmem : k ∈ m.map Prod.fst
  · rw [if_pos hmem]
    exact h
  · rw [if_neg hmem]
    simp [List.nodup_append, h, hmem]

/-! ### Lemmas about the severity histogram and score -/

theorem lookupD_foldl_histStep :
    ∀ (vs : List Vulnerabilities) (m0 : List (List Char × Nat)) (s : List Char),
    lookupD (vs.foldl histStep m0) s = lookupD m0 s + sevCountV vs s := by
  intro vs
  induction vs with
  | nil => intro m0 s; simp [sevCountV]
  | cons v vs ih =>
    intro m0 s
    rw [List.foldl_cons, ih]
    unfold histStep
    rw [lookupD_mapSet]
    unfold sevCountV
    rw [List.countP_cons]
    by_cases hv : v.Severity = s
    · rw [if_pos hv, hv]
      simp [sevCountV]
      omega
    · rw [if_neg hv]
      simp [sevCountV, hv]

theorem mem_keys_foldl_histStep :
    ∀ (vs : List Vulnerabilities) (m0 : List (List Char × Nat)) (s : List Char),
    s ∈ (vs.foldl histStep m0).map Prod.fst ↔
      s ∈ m0.map Prod.fst ∨ ∃ v ∈ vs, v.Severity = s := by
  intro vs
  induction vs with
  | nil => intro m0 s; simp
  | cons v vs ih =>
    intro m0 s
    rw [List.foldl_cons, ih (histStep m0 v) s]
    unfold histStep
    rw [mem_keys_mapSet]
    constructor
    · rintro ((h | h) | ⟨v', hv', h⟩)
      · exact Or.inl h
      · exact Or.inr ⟨v, List.mem_cons_self v vs, h.symm⟩
      · exact Or.inr ⟨v', List.mem_cons_of_mem v hv', h⟩
    · rintro (h | ⟨v', hv', h⟩)
      · exact Or.inl (Or.inl h)
      · rcases List.mem_cons.mp hv' with rfl | hv2
        · exact Or.inl (Or.inr h.symm)
        · exact Or.inr ⟨v', hv2, h⟩

theorem nodup_keys_foldl_histStep :
    ∀ (vs : List Vulnerabilities) (m0 : List (List Char × Nat)),
    (m0.map Prod.fst).Nodup → ((vs.foldl histStep m0).map Prod.fst).Nodup := by
  intro vs
  induction vs with
  | nil => intro m0 h; exact h
  | cons v vs ih =>
    intro m0 h
    exact ih _ (nodup_keys_mapSet _ _ _ h)

theorem foldl_add_eq_sum {α : Type} (f : α → Nat) :
    ∀ (l : List α) (acc : Nat), l.foldl (fun a x => a + f x) acc = acc + (l.map f).sum := by
  intro l
  induction l with
  | nil => intro acc; simp
  | cons x xs ih =>
    intro acc
    simp [ih, Nat.add_assoc]

theorem scoreOfMap_eq_sum (m : List (List Char × Nat)) :
    scoreOfMap m = (m.map (fun p => p.2 * lookupD severityScores p.1)).sum := by
  unfold scoreOfMap
  simpa using foldl_add_eq_sum (fun p => p.2 * lookupD severityScores p.1) m 0

theorem sum_mapSet_incr (k : List Char) :
    ∀ (m : List (List Char × Nat)),
    ((mapSet m k (lookupD m k + 1)).map (fun p => p.2 * lookupD severityScores p.1)).sum =
      (m.map (fun p => p.2 * lookupD severityScores p.1)).sum + lookupD severityScores k := by
  intro m
  induction m with
  | nil => simp [mapSet, lookupD]
  | cons p rest ih =>
    obtain ⟨k', v'⟩ := p
    by_cases hk : k' = k
    · subst hk
      have h1 : lookupD ((k', v') :: rest) k' = v' := by simp [lookupD]
      have h2 : mapSet ((k', v') :: rest) k' (v' + 1) = (k', v' + 1) :: rest := by
        simp [mapSet]
      rw [h1, h2]
      simp only [List.map_cons, List.sum_cons]
      ring
    · have h1 : lookupD ((k', v') :: rest) k = lookupD rest k := by simp [lookupD, hk]
      have h2 : mapSet ((k', v') :: rest) k (lookupD rest k + 1) =
          (k', v') :: mapSet rest k (lookupD rest k + 1) := by simp [mapSet, hk]
      rw [h1, h2]
      simp only [List.map_cons, List.sum_cons, ih]
      ring

theorem scoreOfMap_foldl_histStep :
    ∀ (vs : List Vulnerabilities) (m0 : List (List Char × Nat)),
    scoreOfMap (vs.foldl histStep m0) = scoreOfMap m0 + weightSum vs := by
  intro vs
  induction vs with
  | nil => intro m0; simp [weightSum]
  | cons v vs ih =>
    intro m0
    rw [List.foldl_cons, ih]
    unfold histStep weightSum
    rw [scoreOfMap_eq_sum, scoreOfMap_eq_sum, sum_mapSet_incr]
    simp only [List.map_cons, List.sum_cons]
    ring

theorem weight_as_indicators (s : List Char) :
    lookupD severityScores s =
      critical * (if s = str ("CRITICAL") then 1 else 0) +
      high * (if s = str ("HIGH") then 1 else 0) +
      medium * (if s = str ("MEDIUM") then 1 else 0) +
      low * (if s = str ("LOW") then 1 else 0) +
      unknown * (if s = str ("UNKNOWN") then 1 else 0) := by
  by_cases h1 : s = str ("CRITICAL")
  · subst h1; decide
  by_cases h2 : s = str ("HIGH")
  · subst h2; decide
  by_cases h3 : s = str ("MEDIUM")
  · subst h3; decide
  by_cases h4 : s = str ("LOW")
  · subst h4; decide
  by_cases h5 : s = str ("UNKNOWN")
  · subst h5; decide
  have g1 : ¬ str ("CRITICAL") = s := fun hh => h1 hh.symm
  have g2 : ¬ str ("HIGH") = s := fun hh => h2 hh.symm
  have g3 : ¬ str ("MEDIUM") = s := fun hh => h3 hh.symm
  have g4 : ¬ str ("LOW") = s := fun hh => h4 hh.symm
  have g5 : ¬ str ("UNKNOWN") = s := fun hh => h5 hh.symm
  rw [if_neg h1, if_neg h2, if_neg h3, if_neg h4, if_neg h5]
  simp [severityScores, lookupD, g1, g2, g3, g4, g5]

theorem weightSum_eq_counts :
    ∀ (vs : List Vulnerabilities),
    weightSum vs =
      critical * sevCountV vs (str ("CRITICAL")) + high * sevCountV vs (str ("HIGH")) +
      medium * sevCountV vs (str ("MEDIUM")) + low * sevCountV vs (str ("LOW")) +
      unknown * sevCountV vs (str ("UNKNOWN")) := by
  intro vs
  induction vs with
  | nil => simp [weightSum, sevCountV]
  | cons v vs ih =>
    unfold weightSum sevCountV at ih ⊢
    simp only [List.map_cons, List.sum_cons, List.countP_cons, decide_eq_true_eq]
    rw [ih, weight_as_indicators v.Severity]
    ring

/-! ### The histogram and score of a whole result set -/

theorem histOf_eq_foldl_allVulns (results : List TrivyOutputResults) :
    histOf results = (allVulns results).foldl histStep zeroHist := by
  unfold histOf allVulns
  suffices h : ∀ (rs : List TrivyOutputResults) (m0 : List (List Char × Nat)),
      rs.foldl (fun m t => t.Vulnerabilities.foldl histStep m) m0 =
        ((rs.map (fun t => t.Vulnerabilities)).flatten).foldl histStep m0 by
    exact h results zeroHist
  intro rs
  induction rs with
  | nil => intro m0; rfl
  | cons t ts ih =>
    intro m0
    simp only [List.foldl_cons, List.map_cons, List.flatten_cons, List.foldl_append]
    exact ih _

theorem zeroHist_keys : zeroHist.map Prod.fst = knownSeverities := by decide

theorem lookupD_zeroHist (s : List Char) : lookupD zeroHist s = 0 := by
  have h : zeroHist = [(str ("CRITICAL"), 0), (str ("HIGH"), 0), (str ("MEDIUM"), 0),
      (str ("LOW"), 0), (str ("UNKNOWN"), 0)] := by decide
  rw [h]
  simp [lookupD]

theorem scoreOfMap_zeroHist : scoreOfMap zeroHist = 0 := by decide

theorem lookupD_histOf (results : List TrivyOutputResults) (s : List Char) :
    lookupD (histOf results) s = sevCount results s := by
  rw [histOf_eq_foldl_allVulns, lookupD_foldl_histStep, lookupD_zeroHist]
  unfold sevCount
  simp

theorem mem_keys_histOf (results : List TrivyOutputResults) (s : List Char) :
    s ∈ (histOf results).map Prod.fst ↔
      s ∈ knownSeverities ∨ ∃ v ∈ allVulns results, v.Severity = s := by
  rw [histOf_eq_foldl_allVulns, mem_keys_foldl_histStep, zeroHist_keys]

theorem nodup_keys_histOf (results : List TrivyOutputResults) :
    ((histOf results).map Prod.fst).Nodup := by
  rw [histOf_eq_foldl_allVulns]
  exact nodup_keys_foldl_histStep _ _ (by decide)

theorem summary_score_eq (results : List TrivyOutputResults) :
    scoreOfMap (histOf results) =
      critical * sevCount results (str ("CRITICAL")) + high * sevCount results (str ("HIGH")) +
      medium * sevCount results (str ("MEDIUM")) + low * sevCount results (str ("LOW")) +
      unknown * sevCount results (str ("UNKNOWN")) := by
  rw [histOf_eq_foldl_allVulns, scoreOfMap_foldl_histStep, scoreOfMap_zeroHist,
    weightSum_eq_counts]
  unfold sevCount
  simp

/-! ### Claim C1 -/

/-- Claim C1 as stated is false on the code: with image name `foo` and rule
string `foo|bar,c` (whose entry `c` is malformed), the resolver reports a
format error but returns `bar`, not the original name — the well-formed rule
before the malformed one has already been applied.  Moreover a degenerate
entry `a|` (two parts, one empty) is accepted without any error. -/
theorem C1_resolver_error_counterexample :
    ((stringReplacement (str ("foo")) (str ("foo|bar,c"))).2 = true ∧
      ¬ (stringReplacement (str ("foo")) (str ("foo|bar,c"))).1 = str ("foo")) ∧
    (stringReplacement (str ("x")) (str ("a|"))).2 = false := by
  decide

/-- Claim C1 (amended): for a non-empty rule string whose entry list splits
as `pre ++ e :: post` with every entry of `pre` well-formed (exactly two
parts on the bar) and `e` malformed, the resolver returns a format error
together with the name as rewritten by the rules of `pre` — the original
name only when no preceding rule changed it; and the caller (the scan
orchestration) proceeds with exactly the returned first component as the
image name it scans. -/
theorem C1_resolver_partial_name_on_error :
    (∀ (name repl : List Char) (pre : List (List Char)) (e : List Char)
        (post : List (List Char)),
        repl ≠ [] →
        splitOn ',' repl = pre ++ e :: post →
        (∀ e' ∈ pre, (splitOn '|' e').length = 2) →
        (splitOn '|' e).length ≠ 2 →
        stringReplacement name repl = (pre.foldl applyEntry name, true)) ∧
    (∀ (env : ScanEnv) (repl : List Char) (entry : List Char × List ContainerSummary),
        ((processImage env repl entry).2).ImageName = (stringReplacement entry.1 repl).1) := by
  constructor
  · intro name repl pre e post hne hsplit hpre hbad
    unfold stringReplacement
    rw [if_neg hne, hsplit]
    exact applyEntries_append_bad e post pre name hpre hbad
  · intro env repl entry
    rfl

/-- Witness for the amended claim C1 at a concrete input. -/
theorem C1_resolver_partial_name_on_error_witness :
    (str ("foo|bar,c") ≠ ([] : List Char)) ∧
    stringReplacement (str ("foo")) (str ("foo|bar,c")) =
      ([str ("foo|bar")].foldl applyEntry (str ("foo")), true) :=
  ⟨by decide,
   C1_resolver_partial_name_on_error.1 (str ("foo")) (str ("foo|bar,c"))
     [str ("foo|bar")] (str ("c")) [] (by decide) (by decide) (by decide) (by decide)⟩

/-! ### Claim C5 -/

/-- Claim C5: rewrite rules are applied cumulatively in listed order, each
rule performing literal global substring replacement on the output of the
previous rule (for any rule list whose parts contain no delimiter
characters, the resolver computes the left fold of `replaceAll` over the
rules); in particular resolving `registry/foo:latest` with
`foo|bar,bar|baz` yields `registry/baz:latest`. -/
theorem C5_rules_cumulative :
    (∀ (name : List Char) (rules : List (List Char × List Char)),
        (∀ p ∈ rules, ¬ ',' ∈ p.1 ∧ ¬ ',' ∈ p.2 ∧ ¬ '|' ∈ p.1 ∧ ¬ '|' ∈ p.2) →
        stringReplacement name (renderRules rules) =
          (rules.foldl (fun n p => replaceAll n p.1 p.2) name, false)) ∧
    stringReplacement (str ("registry/foo:latest")) (str ("foo|bar,bar|baz")) =
      (str ("registry/baz:latest"), false) := by
  constructor
  · intro name rules h
    cases rules with
    | nil => simp [renderRules, joinWith, stringReplacement]
    | cons r rs =>
      have hrr : renderRule r ≠ [] := by
        unfold renderRule
        simp
      have hne : renderRules (r :: rs) ≠ [] := by
        unfold renderRules
        exact joinWith_ne_nil ',' (renderRule r) (rs.map renderRule) hrr
      have hentries : ∀ e ∈ (r :: rs).map renderRule, ¬ ',' ∈ e := by
        intro e he
        obtain ⟨p, hp, rfl⟩ := List.mem_map.mp he
        have hp' := h p hp
        unfold renderRule
        simp only [List.mem_append, List.mem_cons]
        rintro (hc | hc | hc)
        · exact hp'.1 hc
        · exact absurd hc (by decide)
        · exact hp'.2.1 hc
      unfold stringReplacement
      rw [if_neg hne]
      unfold renderRules
      rw [splitOn_joinWith ',' ((r :: rs).map renderRule) (by simp) hentries]
      exact applyEntries_renderRules (r :: rs) name
        (fun p hp => ⟨(h p hp).2.2.1, (h p hp).2.2.2⟩)
  · decide

/-- Witness for claim C5 at a concrete input. -/
theorem C5_rules_cumulative_witness :
    stringReplacement (str ("abc")) (renderRules [(str ("b"), str ("x"))]) =
      ([(str ("b"), str ("x"))].foldl (fun n p => replaceAll n p.1 p.2) (str ("abc")), false) :=
  C5_rules_cumulative.1 (str ("abc")) [(str ("b"), str ("x"))] (by decide)

/-! ### Claim C3 -/

/-- Claim C3: for every result set whose findings all carry one of the five
known severity strings (the severity domain of the data model) and every
container set, the severity histogram of the resulting summary has exactly
five keys — CRITICAL, HIGH, MEDIUM, LOW and UNKNOWN are each present — and
each key is mapped to the number of findings of that severity, zero when
there are none. -/
theorem C3_histogram_exactly_five_keys (results : List TrivyOutputResults)
    (containers : List ContainerSummary)
    (h : ∀ v ∈ allVulns results, v.Severity ∈ knownSeverities) :
    ((buildVulnerabilitySummary results containers).TotalVulnerabilityBySeverity.length = 5) ∧
    (∀ s, s ∈ (buildVulnerabilitySummary results
        containers).TotalVulnerabilityBySeverity.map Prod.fst ↔ s ∈ knownSeverities) ∧
    (∀ s ∈ knownSeverities,
        lookupD (buildVulnerabilitySummary results containers).TotalVulnerabilityBySeverity s =
          sevCount results s) := by
  have hmem : ∀ s, s ∈ (histOf results).map Prod.fst ↔ s ∈ knownSeverities := by
    intro s
    rw [mem_keys_histOf]
    constructor
    · rintro (hs | ⟨v, hv, rfl⟩)
      · exact hs
      · exact h v hv
    · exact Or.inl
  refine ⟨?_, hmem, fun s _ => lookupD_histOf results s⟩
  have hnd := nodup_keys_histOf results
  have hfin : ((histOf results).map Prod.fst).toFinset = knownSeverities.toFinset := by
    ext s
    simp only [List.mem_toFinset]
    exact hmem s
  have hlen : ((histOf results).map Prod.fst).length = knownSeverities.length := by
    rw [← List.toFinset_card_of_nodup hnd,
      ← List.toFinset_card_of_nodup (by decide : knownSeverities.Nodup), hfin]
  show (histOf results).length = 5
  have hml : ((histOf results).map Prod.fst).length = (histOf results).length :=
    List.length_map _ _
  rw [← hml, hlen]
  rfl

/-- Witness for claim C3 at a concrete input: one finding of severity HIGH. -/
theorem C3_histogram_exactly_five_keys_witness :
    (∀ v ∈ allVulns [mkTarget [mkVuln (str ("HIGH"))]], v.Severity ∈ knownSeverities) ∧
    (buildVulnerabilitySummary [mkTarget [mkVuln (str ("HIGH"))]]
        []).TotalVulnerabilityBySeverity.length = 5 :=
  ⟨by decide,
   (C3_histogram_exactly_five_keys [mkTarget [mkVuln (str ("HIGH"))]] [] (by decide)).1⟩

/-! ### Claim C10 -/

/-- Claim C10: a finding whose severity string is not one of the five known
levels is counted under a new histogram key equal to that string — growing
the histogram beyond five keys — while contributing exactly zero to the
severity score, which is determined by the five known severities alone. -/
theorem C10_unknown_severity_new_key_zero_weight (results : List TrivyOutputResults)
    (containers : List ContainerSummary) (s : List Char) (hs : ¬ s ∈ knownSeverities) :
    (lookupD (buildVulnerabilitySummary results containers).TotalVulnerabilityBySeverity s =
        sevCount results s) ∧
    ((∃ v ∈ allVulns results, v.Severity = s) →
        s ∈ (buildVulnerabilitySummary results
            containers).TotalVulnerabilityBySeverity.map Prod.fst ∧
        5 < (buildVulnerabilitySummary results containers).TotalVulnerabilityBySeverity.length) ∧
    ((buildVulnerabilitySummary results containers).SeverityScore =
        critical * sevCount results (str ("CRITICAL")) + high * sevCount results (str ("HIGH")) +
        medium * sevCount results (str ("MEDIUM")) + low * sevCount results (str ("LOW")) +
        unknown * sevCount results (str ("UNKNOWN"))) := by
  refine ⟨lookupD_histOf results s, ?_, summary_score_eq results⟩
  intro hex
  have hmem : s ∈ (histOf results).map Prod.fst :=
    (mem_keys_histOf results s).mpr (Or.inr hex)
  refine ⟨hmem, ?_⟩
  have hnd := nodup_keys_histOf results
  have hsub : ∀ x ∈ s :: knownSeverities, x ∈ (histOf results).map Prod.fst := by
    intro x hx
    rcases List.mem_cons.mp hx with rfl | hx2
    · exact hmem
    · exact (mem_keys_histOf results x).mpr (Or.inl hx2)
  have hcard : (s :: knownSeverities).toFinset.card ≤
      ((histOf results).map Prod.fst).toFinset.card := by
    apply Finset.card_le_card
    intro x hx
    rw [List.mem_toFinset] at hx ⊢
    exact hsub x hx
  have h6 : (s :: knownSeverities).toFinset.card = 6 := by
    rw [List.toFinset_cons,
      Finset.card_insert_of_not_mem (by rw [List.mem_toFinset]; exact hs)]
    decide
  have hle : ((histOf results).map Prod.fst).toFinset.card ≤
      ((histOf results).map Prod.fst).length := List.toFinset_card_le _
  have hml : ((histOf results).map Prod.fst).length = (histOf results).length :=
    List.length_map _ _
  show 5 < (histOf results).length
  omega

/-- Witness for claim C10 at a concrete input: one finding of severity BOGUS. -/
theorem C10_unknown_severity_new_key_zero_weight_witness :
    (¬ str ("BOGUS") ∈ knownSeverities) ∧
    lookupD (buildVulnerabilitySummary [mkTarget [mkVuln (str ("BOGUS"))]]
        []).TotalVulnerabilityBySeverity (str ("BOGUS")) =
      sevCount [mkTarget [mkVuln (str ("BOGUS"))]] (str ("BOGUS")) ∧
    5 < (buildVulnerabilitySummary [mkTarget [mkVuln (str ("BOGUS"))]]
        []).TotalVulnerabilityBySeverity.length :=
  have h := C10_unknown_severity_new_key_zero_weight [mkTarget [mkVuln (str ("BOGUS"))]]
    [] (str ("BOGUS")) (by decide)
  ⟨by decide, h.1, (h.2.1 ⟨mkVuln (str ("BOGUS")), by decide, rfl⟩).2⟩

/-! ### Claim C4 -/

theorem indicator_sum_le_one (s : List Char) :
    (if decide (s = str ("HIGH")) = true then (1 : Nat) else 0) +
    (if decide (s = str ("MEDIUM")) = true then 1 else 0) +
    (if decide (s = str ("LOW")) = true then 1 else 0) +
    (if decide (s = str ("UNKNOWN")) = true then 1 else 0) ≤ 1 := by
  by_cases h1 : s = str ("HIGH")
  · subst h1; decide
  by_cases h2 : s = str ("MEDIUM")
  · subst h2; decide
  by_cases h3 : s = str ("LOW")
  · subst h3; decide
  by_cases h4 : s = str ("UNKNOWN")
  · subst h4; decide
  simp [h1, h2, h3, h4]

theorem add_four_le_succ {a b c d w x y z n : Nat}
    (h1 : a + b + c + d ≤ n) (h2 : w + x + y + z ≤ 1) :
    (a + w) + (b + x) + (c + y) + (d + z) ≤ n + 1 := by omega

theorem four_counts_le_length :
    ∀ (vs : List Vulnerabilities),
    sevCountV vs (str ("HIGH")) + sevCountV vs (str ("MEDIUM")) +
      sevCountV vs (str ("LOW")) + sevCountV vs (str ("UNKNOWN")) ≤ vs.length := by
  intro vs
  induction vs with
  | nil => simp [sevCountV]
  | cons v vs ih =>
    unfold sevCountV at ih ⊢
    simp only [List.countP_cons, List.length_cons]
    exact add_four_le_succ ih (indicator_sum_le_one v.Severity)

/-- Claim C4 fails as stated ("regardless of how many findings each set
contains"): a set of one CRITICAL finding and a set of 100 HIGH findings
both score exactly 100000000, so the first is not strictly greater. -/
theorem C4_critical_dominance_counterexample :
    (buildVulnerabilitySummary [mkTarget [mkVuln (str ("CRITICAL"))]] []).SeverityScore =
      100000000 ∧
    (buildVulnerabilitySummary [mkTarget (List.replicate 100 (mkVuln (str ("HIGH"))))]
        []).SeverityScore = 100000000 ∧
    ¬ ((buildVulnerabilitySummary [mkTarget (List.replicate 100 (mkVuln (str ("HIGH"))))]
          []).SeverityScore <
        (buildVulnerabilitySummary [mkTarget [mkVuln (str ("CRITICAL"))]] []).SeverityScore) := by
  decide

/-- Claim C4 (amended): a finding set containing at least one CRITICAL
finding scores strictly higher than a CRITICAL-free finding set, provided
the CRITICAL-free set has at most 99 findings; at 100 findings strict
dominance can fail, as the counterexample shows. -/
theorem C4_critical_dominance_bounded (A B : List TrivyOutputResults)
    (cA cB : List ContainerSummary)
    (hA : ∃ v ∈ allVulns A, v.Severity = str ("CRITICAL"))
    (hB : ∀ v ∈ allVulns B,
        v.Severity ∈ [str ("HIGH"), str ("MEDIUM"), str ("LOW"), str ("UNKNOWN")])
    (hn : (allVulns B).length ≤ 99) :
    (buildVulnerabilitySummary B cB).SeverityScore <
      (buildVulnerabilitySummary A cA).SeverityScore := by
  have hA1 : 0 < sevCount A (str ("CRITICAL")) := by
    unfold sevCount sevCountV
    obtain ⟨v, hv, he⟩ := hA
    exact List.countP_pos_iff.mpr ⟨v, hv, by simp [he]⟩
  have hBC : sevCount B (str ("CRITICAL")) = 0 := by
    unfold sevCount sevCountV
    rw [List.countP_eq_zero]
    intro v hv hdec
    have hveq : v.Severity = str ("CRITICAL") := of_decide_eq_true hdec
    have hmem := hB v hv
    rw [hveq] at hmem
    exact absurd hmem (by decide)
  have hfour := four_counts_le_length (allVulns B)
  show scoreOfMap (histOf B) < scoreOfMap (histOf A)
  rw [summary_score_eq A, summary_score_eq B, hBC]
  unfold sevCount at hA1 ⊢
  unfold critical high medium low unknown
  omega

/-- Witness for the amended claim C4 at a concrete input: one CRITICAL
finding against one HIGH finding. -/
theorem C4_critical_dominance_bounded_witness :
    ((∃ v ∈ allVulns [mkTarget [mkVuln (str ("CRITICAL"))]],
        v.Severity = str ("CRITICAL")) ∧
     (∀ v ∈ allVulns [mkTarget [mkVuln (str ("HIGH"))]],
        v.Severity ∈ [str ("HIGH"), str ("MEDIUM"), str ("LOW"), str ("UNKNOWN")]) ∧
     (allVulns [mkTarget [mkVuln (str ("HIGH"))]]).length ≤ 99) ∧
    (buildVulnerabilitySummary [mkTarget [mkVuln (str ("HIGH"))]] []).SeverityScore <
      (buildVulnerabilitySummary [mkTarget [mkVuln (str ("CRITICAL"))]] []).SeverityScore :=
  ⟨⟨by decide, by decide, by decide⟩,
   C4_critical_dominance_bounded [mkTarget [mkVuln (str ("CRITICAL"))]]
     [mkTarget [mkVuln (str ("HIGH"))]] [] [] (by decide) (by decide) (by decide)⟩

/-! ### Lemmas about the image grouper -/

theorem mem_dedupFirst (x : List Char) :
    ∀ (xs : List (List Char)), x ∈ dedupFirst xs ↔ x ∈ xs := by
  intro xs
  induction xs with
  | nil => simp [dedupFirst]
  | cons a xs ih =>
    simp only [dedupFirst, List.mem_cons, List.mem_filter, decide_eq_true_eq, ih]
    constructor
    · rintro (rfl | ⟨hmem, _⟩)
      · exact Or.inl rfl
      · exact Or.inr hmem
    · rintro (rfl | hmem)
      · exact Or.inl rfl
      · by_cases hax : x = a
        · exact Or.inl hax
        · exact Or.inr ⟨hmem, hax⟩

theorem nodup_dedupFirst : ∀ (xs : List (List Char)), (dedupFirst xs).Nodup := by
  intro xs
  induction xs with
  | nil => simp [dedupFirst]
  | cons a xs ih =>
    simp only [dedupFirst]
    rw [List.nodup_cons]
    constructor
    · intro hmem
      have h := (List.mem_filter.mp hmem).2
      simp at h
    · exact List.Nodup.filter _ ih

theorem dedupFirst_append (y : List Char) :
    ∀ (xs : List (List Char)),
    dedupFirst (xs ++ [y]) = if y ∈ xs then dedupFirst xs else dedupFirst xs ++ [y] := by
  intro xs
  induction xs with
  | nil => simp [dedupFirst]
  | cons x xs ih =>
    have hcons : ∀ (l : List (List Char)),
        dedupFirst (x :: l) = x :: (dedupFirst l).filter (fun z => decide (¬ z = x)) :=
      fun l => rfl
    rw [List.cons_append, hcons, hcons, ih]
    by_cases hmem : y ∈ xs
    · rw [if_pos hmem, if_pos (List.mem_cons_of_mem x hmem)]
    · rw [if_neg hmem, List.filter_append]
      by_cases hxy : y = x
      · rw [if_pos (by rw [hxy]; exact List.mem_cons_self x xs)]
        simp [hxy]
      · rw [if_neg (by simp [List.mem_cons, hxy, hmem])]
        simp [hxy]

theorem bucketAppend_map_mem (c : ContainerSummary) (F : List Char → List ContainerSummary) :
    ∀ (K : List (List Char)), K.Nodup → c.Image ∈ K →
    bucketAppend (K.map (fun k => (k, F k))) c.Image c =
      K.map (fun k => (k, F k ++ if k = c.Image then [c] else [])) := by
  intro K
  induction K with
  | nil => intro _ h; exact absurd h (by simp)
  | cons x K ih =>
    intro hnd hmem
    rw [List.map_cons, List.map_cons]
    by_cases hx : x = c.Image
    · rw [show bucketAppend ((x, F x) :: K.map (fun k => (k, F k))) c.Image c =
          (x, F x ++ [c]) :: K.map (fun k => (k, F k)) from by simp [bucketAppend, hx]]
      rw [if_pos hx]
      congr 1
      apply List.map_congr_left
      intro a ha
      have hac : ¬ a = c.Image := by
        intro h
        exact (List.nodup_cons.mp hnd).1 (by rw [hx, ← h]; exact ha)
      rw [if_neg hac, List.append_nil]
    · rw [show bucketAppend ((x, F x) :: K.map (fun k => (k, F k))) c.Image c =
          (x, F x) :: bucketAppend (K.map (fun k => (k, F k))) c.Image c from by
        simp [bucketAppend, hx]]
      rw [if_neg hx, List.append_nil]
      congr 1
      refine ih (List.nodup_cons.mp hnd).2 ?_
      rcases List.mem_cons.mp hmem with h | h
      · exact absurd h.symm hx
      · exact h

theorem bucketAppend_map_not_mem (c : ContainerSummary)
    (F : List Char → List ContainerSummary) :
    ∀ (K : List (List Char)), ¬ c.Image ∈ K →
    bucketAppend (K.map (fun k => (k, F k))) c.Image c =
      K.map (fun k => (k, F k)) ++ [(c.Image, [c])] := by
  intro K
  induction K with
  | nil => intro _; rfl
  | cons x K ih =>
    intro hmem
    have hx : ¬ x = c.Image := fun h => hmem (by rw [← h]; exact List.mem_cons_self x K)
    rw [List.map_cons, show bucketAppend ((x, F x) :: K.map (fun k => (k, F k))) c.Image c =
        (x, F x) :: bucketAppend (K.map (fun k => (k, F k))) c.Image c from by
      simp [bucketAppend, hx]]
    rw [ih (fun h => hmem (List.mem_cons_of_mem x h))]
    rfl

theorem filter_singleton_image (c : ContainerSummary) (k : List Char) :
    List.filter (fun x => decide (x.Image = k)) [c] = if k = c.Image then [c] else [] := by
  by_cases hck : k = c.Image
  · rw [if_pos hck, hck]
    simp
  · rw [if_neg hck]
    have h : ¬ c.Image = k := fun h => hck h.symm
    simp [h]

theorem group_eq_groupSpec : ∀ (cs : List ContainerSummary),
    groupContainersByImageName cs = groupSpec cs := by
  intro cs
  induction cs using List.reverseRecOn with
  | nil => rfl
  | append_singleton cs c ih =>
    have hstep : groupContainersByImageName (cs ++ [c]) =
        bucketAppend (groupContainersByImageName cs) c.Image c := by
      unfold groupContainersByImageName
      rw [List.foldl_append]
      rfl
    rw [hstep, ih]
    unfold groupSpec
    rw [show (cs ++ [c]).map (fun x => x.Image) = cs.map (fun x => x.Image) ++ [c.Image]
      from by simp]
    rw [dedupFirst_append]
    by_cases hmem : c.Image ∈ cs.map (fun x => x.Image)
    · rw [if_pos hmem]
      rw [bucketAppend_map_mem c _ _ (nodup_dedupFirst _) ((mem_dedupFirst _ _).mpr hmem)]
      apply List.map_congr_left
      intro k hk
      rw [List.filter_append, filter_singleton_image]
    · rw [if_neg hmem]
      rw [bucketAppend_map_not_mem c _ _ (fun h => hmem ((mem_dedupFirst _ _).mp h))]
      rw [List.map_append]
      congr 1
      · apply List.map_congr_left
        intro k hk
        have hkc : ¬ k = c.Image := by
          intro h
          exact hmem (by rw [← h]; exact (mem_dedupFirst _ _).mp hk)
        rw [List.filter_append, filter_singleton_image, if_neg hkc, List.append_nil]
      · have hnil : cs.filter (fun x => decide (x.Image = c.Image)) = [] := by
          rw [List.filter_eq_nil_iff]
          intro a ha hdec
          exact hmem (by rw [← of_decide_eq_true hdec]; exact List.mem_map_of_mem _ ha)
        simp only [List.map_cons, List.map_nil]
        rw [List.filter_append, hnil, filter_singleton_image, if_pos rfl]
        rfl

theorem count_filter_image (k : List Char) (x : ContainerSummary) :
    ∀ (cs : List ContainerSummary),
    (cs.filter (fun c => decide (c.Image = k))).count x =
      if x.Image = k then cs.count x else 0 := by
  intro cs
  induction cs with
  | nil => simp
  | cons c cs ih =>
    by_cases hc : c.Image = k
    · rw [List.filter_cons_of_pos (by simp [hc]), List.count_cons, ih]
      by_cases hx : x.Image = k
      · rw [if_pos hx, if_pos hx, List.count_cons]
      · have hcx : ¬ c = x := fun h => hx (by rw [← h]; exact hc)
        rw [if_neg hx, if_neg hx]
        simp [beq_iff_eq, hcx]
    · rw [List.filter_cons_of_neg (by simp [hc]), ih]
      by_cases hx : x.Image = k
      · have hcx : ¬ c = x := fun h => hc (by rw [h]; exact hx)
        rw [if_pos hx, if_pos hx, List.count_cons]
        simp [beq_iff_eq, hcx]
      · rw [if_neg hx, if_neg hx]

theorem sum_count_ite (a : List Char) (n : Nat) :
    ∀ (K : List (List Char)), K.Nodup →
    (K.map (fun k => if a = k then n else 0)).sum = if a ∈ K then n else 0 := by
  intro K
  induction K with
  | nil => simp
  | cons k K ih =>
    intro hnd
    rw [List.map_cons, List.sum_cons, ih (List.nodup_cons.mp hnd).2]
    by_cases hak : a = k
    · subst hak
      have hnot : ¬ a ∈ K := (List.nodup_cons.mp hnd).1
      rw [if_pos rfl, if_neg hnot, if_pos (List.mem_cons_self a K)]
      rfl
    · rw [if_neg hak]
      by_cases hmem : a ∈ K
      · rw [if_pos hmem, if_pos (List.mem_cons_of_mem k hmem)]
        simp
      · rw [if_neg hmem, if_neg (by simp [List.mem_cons, hak, hmem])]

theorem perm_flatten_group (cs : List ContainerSummary) :
    ((groupContainersByImageName cs).map Prod.snd).flatten.Perm cs := by
  rw [group_eq_groupSpec, List.perm_iff_count]
  intro x
  unfold groupSpec
  rw [List.map_map, List.count_flatten, List.map_map]
  have hcongr : ∀ k ∈ dedupFirst (cs.map (fun c => c.Image)),
      ((fun l => List.count x l) ∘ Prod.snd ∘
        (fun k => (k, cs.filter (fun c => decide (c.Image = k))))) k =
      (fun k => if x.Image = k then cs.count x else 0) k := by
    intro k hk
    exact count_filter_image k x cs
  rw [List.map_congr_left hcongr, sum_count_ite _ _ _ (nodup_dedupFirst _)]
  by_cases hmem : x.Image ∈ dedupFirst (cs.map (fun c => c.Image))
  · rw [if_pos hmem]
  · rw [if_neg hmem]
    symm
    rw [List.count_eq_zero]
    intro hx
    exact hmem ((mem_dedupFirst _ _).mpr (List.mem_map_of_mem _ hx))

/-! ### Claim C6 -/

/-- Claim C6: the grouper's output is a partition of its input — every
bucket holds exactly the input containers carrying its key image, in input
(first-seen) order, and is non-empty; a key is present exactly when some
input container carries that image; keys are not duplicated; the buckets
together hold every input container exactly once (a permutation of the
input); and the empty input yields the empty mapping. -/
theorem C6_grouper_partition (cs : List ContainerSummary) :
    (∀ k v, (k, v) ∈ groupContainersByImageName cs →
        v = cs.filter (fun c => decide (c.Image = k)) ∧ v ≠ []) ∧
    (∀ k, (∃ v, (k, v) ∈ groupContainersByImageName cs) ↔
        k ∈ cs.map (fun c => c.Image)) ∧
    ((groupContainersByImageName cs).map Prod.fst).Nodup ∧
    ((groupContainersByImageName cs).map Prod.snd).flatten.Perm cs ∧
    (cs = [] → groupContainersByImageName cs = []) := by
  refine ⟨?_, ?_, ?_, perm_flatten_group cs, ?_⟩
  · intro k v hmem
    rw [group_eq_groupSpec] at hmem
    unfold groupSpec at hmem
    obtain ⟨k', hk', heq⟩ := List.mem_map.mp hmem
    have hkk : k' = k := congrArg Prod.fst heq
    subst hkk
    have hv : v = cs.filter (fun c => decide (c.Image = k')) := (congrArg Prod.snd heq).symm
    refine ⟨hv, ?_⟩
    have hkimg : k' ∈ cs.map (fun c => c.Image) := (mem_dedupFirst _ _).mp hk'
    obtain ⟨c, hc, hcimg⟩ := List.mem_map.mp hkimg
    have hcv : c ∈ v := by
      rw [hv, List.mem_filter]
      exact ⟨hc, by simp [hcimg]⟩
    exact List.ne_nil_of_mem hcv
  · intro k
    constructor
    · rintro ⟨v, hmem⟩
      rw [group_eq_groupSpec] at hmem
      unfold groupSpec at hmem
      obtain ⟨k', hk', heq⟩ := List.mem_map.mp hmem
      have hkk : k' = k := congrArg Prod.fst heq
      subst hkk
      exact (mem_dedupFirst _ _).mp hk'
    · intro hmem
      refine ⟨cs.filter (fun c => decide (c.Image = k)), ?_⟩
      rw [group_eq_groupSpec]
      unfold groupSpec
      exact List.mem_map_of_mem _ ((mem_dedupFirst _ _).mpr hmem)
  · rw [group_eq_groupSpec]
    unfold groupSpec
    rw [List.map_map]
    have hcomp : (Prod.fst ∘ fun k => (k, cs.filter (fun c => decide (c.Image = k)))) =
        fun k => k := rfl
    rw [hcomp]
    have hid : (dedupFirst (cs.map (fun c => c.Image))).map (fun k => k) =
        dedupFirst (cs.map (fun c => c.Image)) := List.map_id _
    rw [hid]
    exact nodup_dedupFirst _
  · intro h
    subst h
    rfl

/-- Witness for claim C6 at a concrete input: two containers sharing one
image land in a single bucket, in input order. -/
theorem C6_grouper_partition_witness :
    ((str ("a"), [sampleA1, sampleA2]) ∈ groupContainersByImageName [sampleA1, sampleA2]) ∧
    ([sampleA1, sampleA2] =
        [sampleA1, sampleA2].filter (fun c => decide (c.Image = str ("a"))) ∧
      [sampleA1, sampleA2] ≠ []) :=
  ⟨by decide,
   (C6_grouper_partition [sampleA1, sampleA2]).1 (str ("a")) [sampleA1, sampleA2] (by decide)⟩

/-! ### Claim C7 -/

/-- Claim C7: a database-download failure makes the orchestration return the
wrapped fatal error, with no per-image results and no per-image external
calls (the trace holds only the download attempt); conversely, when the
download succeeds the orchestration returns the full result list — one entry
per image group — whatever the outcomes of pulls, scans, removals and name
resolutions, so the download is the only per-run-fatal condition. -/
theorem C7_db_failure_only_fatal (env : ScanEnv) (repl : List Char)
    (imageList : List (List Char × List ContainerSummary)) :
    (∀ e, env.downloadDatabase = some e →
        (scanImages env repl imageList).2 = Except.error (dbErrMsg e) ∧
        (scanImages env repl imageList).1 = [ScanEvent.downloadDB]) ∧
    (env.downloadDatabase = none →
        (scanImages env repl imageList).2 =
          Except.ok (imageList.map (fun entry => (processImage env repl entry).2)) ∧
        ∀ l, (scanImages env repl imageList).2 = Except.ok l →
          l.length = imageList.length) := by
  constructor
  · intro e he
    constructor
    · simp [scanImages, he]
    · simp [scanImages, he]
  · intro hn
    have h2 : (scanImages env repl imageList).2 =
        Except.ok (imageList.map (fun entry => (processImage env repl entry).2)) := by
      simp [scanImages, hn]
    refine ⟨h2, ?_⟩
    intro l hl
    rw [h2] at hl
    injection hl with hl2
    rw [← hl2, List.length_map]

/-- Witness for claim C7 at concrete environments: a failing download and a
run where every per-image call fails. -/
theorem C7_db_failure_only_fatal_witness :
    (sampleEnvDbFail.downloadDatabase = some (str ("netdown")) ∧
      (scanImages sampleEnvDbFail [] [(str ("img"), [sampleA1])]).2 =
        Except.error (dbErrMsg (str ("netdown")))) ∧
    (sampleEnvScanFail.downloadDatabase = none ∧
      (scanImages sampleEnvScanFail [] [(str ("img"), [sampleA1])]).2 =
        Except.ok ([(str ("img"), [sampleA1])].map
          (fun entry => (processImage sampleEnvScanFail [] entry).2))) :=
  ⟨⟨rfl, ((C7_db_failure_only_fatal sampleEnvDbFail []
      [(str ("img"), [sampleA1])]).1 (str ("netdown")) rfl).1⟩,
   ⟨rfl, ((C7_db_failure_only_fatal sampleEnvScanFail []
      [(str ("img"), [sampleA1])]).2 rfl).1⟩⟩

/-! ### Claim C8 -/

/-- Claim C8: when the database download succeeds and the external scan of
the i-th image group fails, the orchestration still returns the complete
result list — one entry per image group, siblings unaffected — and the i-th
entry carries the resolved image name, a populated scan error, no findings,
a container count equal to the group's size, a zero severity score and the
all-zero five-key severity histogram. -/
theorem C8_scan_failure_isolated (env : ScanEnv) (repl : List Char)
    (imageList : List (List Char × List ContainerSummary))
    (hdb : env.downloadDatabase = none)
    (i : Nat) (hi : i < imageList.length) (e : GoError)
    (hscan : env.scanImage ((stringReplacement (imageList.get ⟨i, hi⟩).1 repl).1) =
      Except.error e) :
    ∃ l, (scanImages env repl imageList).2 = Except.ok l ∧
      l.length = imageList.length ∧
      l[i]? = some (processImage env repl (imageList.get ⟨i, hi⟩)).2 ∧
      ((processImage env repl (imageList.get ⟨i, hi⟩)).2).ImageName =
        (stringReplacement (imageList.get ⟨i, hi⟩).1 repl).1 ∧
      ((processImage env repl (imageList.get ⟨i, hi⟩)).2).ScanError =
        some (trivyErrMsg ((stringReplacement (imageList.get ⟨i, hi⟩).1 repl).1) e) ∧
      ((processImage env repl (imageList.get ⟨i, hi⟩)).2).TrivyOutputResults = [] ∧
      ((processImage env repl
          (imageList.get ⟨i, hi⟩)).2).VulnerabilitySummary.ContainerCount =
        (imageList.get ⟨i, hi⟩).2.length ∧
      ((processImage env repl
          (imageList.get ⟨i, hi⟩)).2).VulnerabilitySummary.SeverityScore = 0 ∧
      ((processImage env repl
          (imageList.get ⟨i, hi⟩)).2).VulnerabilitySummary.TotalVulnerabilityBySeverity =
        [(str ("CRITICAL"), 0), (str ("HIGH"), 0), (str ("MEDIUM"), 0), (str ("LOW"), 0),
         (str ("UNKNOWN"), 0)] := by
  have hpi : (processImage env repl (imageList.get ⟨i, hi⟩)).2 =
      NewScannedImage ((stringReplacement (imageList.get ⟨i, hi⟩).1 repl).1)
        (imageList.get ⟨i, hi⟩).2 []
        (some (trivyErrMsg ((stringReplacement (imageList.get ⟨i, hi⟩).1 repl).1) e)) := by
    simp only [processImage]
    rw [hscan]
  refine ⟨imageList.map (fun entry => (processImage env repl entry).2),
    by simp [scanImages, hdb], List.length_map _ _, ?_, rfl, ?_, ?_, ?_, ?_, ?_⟩
  · rw [List.getElem?_map, List.getElem?_eq_getElem hi]
    rfl
  · rw [hpi]
    rfl
  · rw [hpi]
    rfl
  · rw [hpi]
    rfl
  · rw [hpi]
    rfl
  · rw [hpi]
    rfl

/-- Witness for claim C8 at a concrete run: one image whose scan fails. -/
theorem C8_scan_failure_isolated_witness :
    (sampleEnvScanFail.downloadDatabase = none) ∧
    (0 < [(str ("img"), [sampleA1])].length) ∧
    (sampleEnvScanFail.scanImage
        ((stringReplacement ([(str ("img"), [sampleA1])].get ⟨0, by decide⟩).1 []).1) =
      Except.error (str ("boom"))) ∧
    ∃ l, (scanImages sampleEnvScanFail [] [(str ("img"), [sampleA1])]).2 = Except.ok l ∧
      l.length = 1 :=
  ⟨rfl, by decide, rfl,
   match C8_scan_failure_isolated sampleEnvScanFail [] [(str ("img"), [sampleA1])] rfl 0
       (by decide) (str ("boom")) rfl with
   | ⟨l, h1, h2, _⟩ => ⟨l, h1, h2⟩⟩

/-! ### Claim C9 -/

/-- Claim C9's divergence from the code, evaluated: the compliance-scan
orchestration invokes the engine exactly once with the benchmark name, but
on success it hands `nil` — not the engine's output — to the report
generator, and on failure its error message carries the engine's cause while
not containing the benchmark name. -/
theorem C9_cisscan_eval :
    (CisScan { cisEngine := fun _ => Except.ok (str ("engine-output")) } (str ("k8s-cis")) =
      ([str ("k8s-cis")], Except.ok none)) ∧
    (CisScan { cisEngine := fun _ => Except.error (str ("boom")) } (str ("k8s-cis")) =
      ([str ("k8s-cis")], Except.error (cisErrMsg (str ("boom"))))) ∧
    containsSubstring (cisErrMsg (str ("boom"))) (str ("boom")) = true ∧
    containsSubstring (cisErrMsg (str ("boom"))) (str ("k8s-cis")) = false :=
  ⟨rfl, rfl, by decide, by decide⟩

end ProdReadiness
